import Mathlib

/-!
Verification of the descrambling engine of the `DescrambledImage` component
(`src/frontend/app.js`).

The JavaScript is shallowly embedded:

* `parseInt` results are `Option Int` (`none` is `NaN`);
* the MD5 primitive (`CryptoJS.MD5(s).toString()`, an external collaborator)
  is a parameter `md5 : String → String`;
* `hashData.charCodeAt(hashData.length - 1)` is `hashData.back.toNat`;
* `page.split('.')[0]` is `pageBaseName` (characters strictly before the
  first dot);
* the `/\.gif$/i` test is `isGifPage` (ASCII case-insensitive suffix check);
* the Vue instance fields mutated by `loadImage` / `cutImage` form
  `InstState`; the asynchronous `onload` / `onerror` closures become the
  explicit completion functions `onImageLoad` / `onImageError` applied to
  whatever state the instance holds when the decode settles.
-/

/-- Embeds the normalization `let sid = parseInt(scrambleId); if (!sid || sid <= 0) sid = 220980;`
    (app.js lines 47-48): `NaN`, `0` and negatives are all replaced by `220980`. -/
def normEpoch : Option Int → Int
  | none => 220980
  | some s => if s ≤ 0 then 220980 else s

/-- Embeds `String(eid) + String(pictureName)` (app.js line 52): the string fed
    to the digest primitive. -/
def hashInput (eid : Int) (pictureName : String) : String :=
  toString eid ++ pictureName

/-- Embeds `getSegmentationNum(epsId, scrambleId, pictureName)`
    (app.js lines 45-58), with the digest primitive as parameter `md5`.
    `keyCode` is the character code of the digest's last character, as
    `hashData.charCodeAt(hashData.length - 1)` computes. -/
def getSegmentationNum (md5 : String → String) (epsId scrambleId : Option Int)
    (pictureName : String) : Nat :=
  match epsId with
  | none => 0
  | some eid =>
    if eid < normEpoch scrambleId then 0
    else if eid < 268850 then 10
    else
      let hashData := md5 (hashInput eid pictureName)
      let keyCode := hashData.back.toNat
      if 421926 < eid then (keyCode % 8) * 2 + 2
      else (keyCode % 10) * 2 + 2

/-- The numeric value (0-15) of a hexadecimal character.  This definition
    follows the spec's words ("the last hexadecimal character of the digest
    and its numeric value `v` (0-15)"), for comparison with what the source
    actually computes (`charCodeAt`). -/
def hexCharVal (c : Char) : Nat :=
  if '0' ≤ c ∧ c ≤ '9' then c.toNat - 48
  else if 'a' ≤ c ∧ c ≤ 'f' then c.toNat - 87
  else if 'A' ≤ c ∧ c ≤ 'F' then c.toNat - 55
  else 0

/-- A stub digest primitive that returns a hex digest ending in the character
    of hexadecimal value 10 (the character 'a', character code 97), as in the
    spec's Scenario C. -/
def stubDigestA : String → String :=
  fun _ => "b0a1c2d3e4f5a6b7c8d9e0f1a2b3c4da"

/-- Claim C6: the slice count is `0` when `numericId` fails to parse, and `0`
    when it parses below the normalized epoch; the normalized epoch is the
    supplied `epochId` when that parses to a positive number and `220980`
    otherwise (absent, non-numeric, zero or negative). -/
theorem segNum_fail_open_zero (md5 : String → String) (sid : Option Int) (p : String) :
    getSegmentationNum md5 none sid p = 0 ∧
    (∀ eid : Int, eid < normEpoch sid → getSegmentationNum md5 (some eid) sid p = 0) ∧
    normEpoch none = 220980 ∧
    (∀ s : Int, s ≤ 0 → normEpoch (some s) = 220980) ∧
    (∀ s : Int, 0 < s → normEpoch (some s) = s) := by
  refine ⟨rfl, ?_, rfl, ?_, ?_⟩
  · intro eid h
    simp only [getSegmentationNum, if_pos h]
  · intro s hs
    simp only [normEpoch, if_pos hs]
  · intro s hs
    have : ¬ s ≤ 0 := by omega
    simp only [normEpoch, if_neg this]

/-- Witness for `segNum_fail_open_zero` at concrete inputs. -/
theorem segNum_fail_open_zero_wit :
    getSegmentationNum stubDigestA none none "p" = 0 ∧
    ((200000 : Int) < normEpoch none ∧
      getSegmentationNum stubDigestA (some 200000) none "p" = 0) ∧
    ((-3 : Int) ≤ 0 ∧ normEpoch (some (-3)) = 220980) ∧
    ((0 : Int) < 5 ∧ normEpoch (some 5) = 5) := by
  obtain ⟨h1, h2, _h3, h4, h5⟩ := segNum_fail_open_zero stubDigestA none "p"
  exact ⟨h1, ⟨by decide, h2 200000 (by decide)⟩,
    ⟨by decide, h4 (-3) (by decide)⟩, ⟨by decide, h5 5 (by decide)⟩⟩

/-- Claim C7: for a parseable `numericId` between the normalized epoch
    (inclusive) and `268850` (exclusive) the slice count is exactly `10`,
    for every digest primitive (so the digest is not consulted). -/
theorem segNum_second_epoch_ten (md5 : String → String) (sid : Option Int)
    (p : String) (eid : Int) (h1 : normEpoch sid ≤ eid) (h2 : eid < 268850) :
    getSegmentationNum md5 (some eid) sid p = 10 := by
  have hn : ¬ eid < normEpoch sid := by omega
  simp only [getSegmentationNum, if_neg hn, if_pos h2]

/-- Witness for `segNum_second_epoch_ten`: `numericId = 250000` with the
    default epoch yields `10` (the spec's Scenario B). -/
theorem segNum_second_epoch_ten_wit :
    normEpoch none ≤ (250000 : Int) ∧ (250000 : Int) < 268850 ∧
    getSegmentationNum stubDigestA (some 250000) none "p" = 10 := by
  exact ⟨by decide, by decide,
    segNum_second_epoch_ten stubDigestA none "p" 250000 (by decide) (by decide)⟩

/-- Claim C5: for a parseable `numericId` at or above the normalized epoch,
    the slice count is an even number in `{2,…,20}` when
    `268850 ≤ numericId ≤ 421926` and an even number in `{2,…,16}` when
    `numericId > 421926`; in both regions the result does not depend on the
    `epochId` (only on `numericId`, `pageBaseName` and the fixed digest),
    hence is deterministic in `(numericId, pageBaseName)`. -/
theorem segNum_range_determinism (md5 : String → String) (sid : Option Int)
    (p : String) (eid : Int) (h1 : normEpoch sid ≤ eid) :
    ((268850 ≤ eid ∧ eid ≤ 421926) →
      (getSegmentationNum md5 (some eid) sid p) % 2 = 0 ∧
      2 ≤ getSegmentationNum md5 (some eid) sid p ∧
      getSegmentationNum md5 (some eid) sid p ≤ 20) ∧
    (421926 < eid →
      (getSegmentationNum md5 (some eid) sid p) % 2 = 0 ∧
      2 ≤ getSegmentationNum md5 (some eid) sid p ∧
      getSegmentationNum md5 (some eid) sid p ≤ 16) ∧
    (∀ sid2 : Option Int, normEpoch sid2 ≤ eid →
      getSegmentationNum md5 (some eid) sid2 p = getSegmentationNum md5 (some eid) sid p) := by
  have hn : ¬ eid < normEpoch sid := by omega
  refine ⟨?_, ?_, ?_⟩
  · rintro ⟨ha, hb⟩
    have h2 : ¬ eid < 268850 := by omega
    have h3 : ¬ 421926 < eid := by omega
    simp only [getSegmentationNum, if_neg hn, if_neg h2, if_neg h3]
    omega
  · intro hgt
    have h2 : ¬ eid < 268850 := by omega
    simp only [getSegmentationNum, if_neg hn, if_neg h2, if_pos hgt]
    omega
  · intro sid2 hsid2
    have hn2 : ¬ eid < normEpoch sid2 := by omega
    simp only [getSegmentationNum, if_neg hn, if_neg hn2]

/-- Witness for `segNum_range_determinism` at `numericId = 300000` and at
    `numericId = 500000` with the stub digest. -/
theorem segNum_range_determinism_wit :
    (normEpoch none ≤ (300000 : Int) ∧
      ((268850 : Int) ≤ 300000 ∧ (300000 : Int) ≤ 421926) ∧
      (getSegmentationNum stubDigestA (some 300000) none "p") % 2 = 0 ∧
      2 ≤ getSegmentationNum stubDigestA (some 300000) none "p" ∧
      getSegmentationNum stubDigestA (some 300000) none "p" ≤ 20) ∧
    (normEpoch none ≤ (500000 : Int) ∧ (421926 : Int) < 500000 ∧
      (getSegmentationNum stubDigestA (some 500000) none "p") % 2 = 0 ∧
      2 ≤ getSegmentationNum stubDigestA (some 500000) none "p" ∧
      getSegmentationNum stubDigestA (some 500000) none "p" ≤ 16) ∧
    getSegmentationNum stubDigestA (some 300000) (some 250000) "p" =
      getSegmentationNum stubDigestA (some 300000) none "p" := by
  refine ⟨⟨by decide, by decide,
      (segNum_range_determinism stubDigestA none "p" 300000 (by decide)).1 (by decide)⟩,
    ⟨by decide, by decide,
      (segNum_range_determinism stubDigestA none "p" 500000 (by decide)).2.1 (by decide)⟩,
    (segNum_range_determinism stubDigestA none "p" 300000 (by decide)).2.2
      (some 250000) (by decide)⟩

/-- Counterexample for claim C1: the claim predicts
    `(v mod 8) * 2 + 2` where `v` is the hexadecimal numeric value of the
    digest's last character, and `6` for Scenario C (`numericId = 500000`,
    digest ending in the character of value `10`, i.e. 'a').  The code uses
    `charCodeAt` (97 for 'a'), so it returns `(97 mod 8) * 2 + 2 = 4`, not
    `6`: the claimed equation is false at this input. -/
theorem segNum_hexvalue_formula_cex :
    getSegmentationNum stubDigestA (some 500000) none "p" = 4 ∧
    (hexCharVal ((stubDigestA (hashInput 500000 "p")).back) % 8) * 2 + 2 = 6 ∧
    ¬ getSegmentationNum stubDigestA (some 500000) none "p" =
        (hexCharVal ((stubDigestA (hashInput 500000 "p")).back) % 8) * 2 + 2 := by
  refine ⟨by decide, by decide, by decide⟩

/-- Claim C1 amended: for a parseable `numericId` at or above the normalized
    epoch with `numericId > 421926`, the slice count is `(c mod 8) * 2 + 2`
    where `c` is the character code of the last character of the MD5 digest of
    the decimal string of `numericId` concatenated with `pageBaseName` (for a
    digest ending in 'a', hex value 10 and character code 97, that is `4`). -/
theorem segNum_high_epoch_keycode_formula (md5 : String → String)
    (sid : Option Int) (p : String) (eid : Int)
    (h1 : normEpoch sid ≤ eid) (h2 : 421926 < eid) :
    getSegmentationNum md5 (some eid) sid p =
      ((md5 (hashInput eid p)).back.toNat % 8) * 2 + 2 := by
  have hn : ¬ eid < normEpoch sid := by omega
  have h3 : ¬ eid < 268850 := by omega
  simp only [getSegmentationNum, if_neg hn, if_neg h3, if_pos h2]

/-- Witness for `segNum_high_epoch_keycode_formula`: with the stub digest
    ending in 'a' and `numericId = 500000` the slice count is `4`. -/
theorem segNum_high_epoch_keycode_formula_wit :
    normEpoch none ≤ (500000 : Int) ∧ (421926 : Int) < 500000 ∧
    getSegmentationNum stubDigestA (some 500000) none "p" =
      ((stubDigestA (hashInput 500000 "p")).back.toNat % 8) * 2 + 2 ∧
    getSegmentationNum stubDigestA (some 500000) none "p" = 4 := by
  exact ⟨by decide, by decide,
    segNum_high_epoch_keycode_formula stubDigestA none "p" 500000 (by decide) (by decide),
    by decide⟩

/-- Embeds `this.page.split('.')[0]` (app.js line 64): the characters of the
    filename strictly before the first '.' (the whole filename when it has no
    dot). -/
def pageBaseName (page : String) : String :=
  ⟨page.data.takeWhile (fun c => c != '.')⟩

/-- Embeds the test `/\.gif$/i.test(this.page)` (app.js line 68): the
    filename, ASCII-lowercased, ends with ".gif". -/
def isGifPage (page : String) : Bool :=
  List.isSuffixOf ".gif".data (page.data.map Char.toLower)

theorem takeWhile_append_stop {p : Char → Bool} :
    ∀ (l1 l2 : List Char) (c : Char), (∀ x ∈ l1, p x = true) → p c = false →
      List.takeWhile p (l1 ++ c :: l2) = l1 := by
  intro l1 l2 c h hc
  induction l1 with
  | nil => simp [List.takeWhile_cons, hc]
  | cons a t ih =>
    have ha : p a = true := h a (by simp)
    simp only [List.cons_append, List.takeWhile_cons, ha, if_true]
    have := ih (fun x hx => h x (by simp [hx]))
    simp only [this]

/-- Claim C10: the string hashed for the segmentation fingerprint is the
    decimal identifier concatenated with the substring of the filename
    strictly before its first '.'; everything from the first dot onward
    (further dots included) is excluded from the digest input, and the slice
    count computed for such a filename agrees with the one computed for the
    bare base name. -/
theorem digest_input_before_first_dot (a b : String) (h : '.' ∉ a.data) :
    pageBaseName (a ++ "." ++ b) = a ∧
    (∀ eid : Int, hashInput eid (pageBaseName (a ++ "." ++ b)) = toString eid ++ a) ∧
    (∀ (md5 : String → String) (cid sid : Option Int),
      getSegmentationNum md5 cid sid (pageBaseName (a ++ "." ++ b)) =
        getSegmentationNum md5 cid sid a) := by
  have hbase : pageBaseName (a ++ "." ++ b) = a := by
    have hdata : (a ++ "." ++ b).data = a.data ++ '.' :: b.data := by
      simp [String.data_append]
    have hall : ∀ x ∈ a.data, (x != '.') = true := by
      intro x hx
      have : x ≠ '.' := fun he => h (he ▸ hx)
      simp [this]
    have hdot : (('.' : Char) != '.') = false := by decide
    apply String.ext
    simp only [pageBaseName, hdata]
    exact takeWhile_append_stop a.data b.data '.' hall hdot
  exact ⟨hbase, fun eid => by rw [hashInput, hbase], fun md5 cid sid => by rw [hbase]⟩

/-- Witness for `digest_input_before_first_dot` on the filename
    "foo.bar.jpg": the hashed base name is "foo", not "foo.bar". -/
theorem digest_input_before_first_dot_wit :
    '.' ∉ ("foo" : String).data ∧
    pageBaseName ("foo" ++ "." ++ "bar.jpg") = "foo" ∧
    hashInput 500000 (pageBaseName ("foo" ++ "." ++ "bar.jpg")) =
      toString (500000 : Int) ++ "foo" ∧
    getSegmentationNum stubDigestA (some 500000) none
        (pageBaseName ("foo" ++ "." ++ "bar.jpg")) =
      getSegmentationNum stubDigestA (some 500000) none "foo" := by
  have h : '.' ∉ ("foo" : String).data := by decide
  obtain ⟨h1, h2, h3⟩ := digest_input_before_first_dot "foo" "bar.jpg" h
  exact ⟨h, h1, h2 500000, h3 stubDigestA (some 500000) none⟩

/-- The decoded raster, reduced to the dimensions `cutImage` reads
    (`image.naturalWidth`, `image.naturalHeight`). -/
structure Raster where
  naturalWidth : Nat
  naturalHeight : Nat
deriving DecidableEq

/-- One `context.drawImage(image, 0, srcY, width, h, 0, destY, width, h)`
    call (app.js line 123): full-width source rows `[srcY, srcY + h)` are
    copied onto destination rows `[destY, destY + h)`, top-to-bottom order
    preserved. -/
structure DrawOp where
  srcY : Nat
  destY : Nat
  h : Nat
deriving DecidableEq

/-- The canvas after `cutImage`: its dimensions, the draw operations executed
    on it in order, and whether it was made visible
    (`canvas.style.display = 'block'`, app.js line 127). -/
structure Canvas where
  width : Nat
  height : Nat
  ops : List DrawOp
  displayed : Bool
deriving DecidableEq

/-- One iteration of the block-building loop (app.js lines 109-116):
    `h = copyHeight * (i + 1)`, plus `rem` when `i` is the last index; push
    `[totalH, h]`; `totalH = h`.  The accumulator is `(blocks, totalH)`. -/
def blockStep (copyHeight rem n : Nat) (acc : List (Nat × Nat) × Nat) (i : Nat) :
    List (Nat × Nat) × Nat :=
  let hh := copyHeight * (i + 1) + (if i = n - 1 then rem else 0)
  (acc.1 ++ [(acc.2, hh)], hh)

/-- The `blocks` array built by `cutImage` (app.js lines 105-116) for a
    raster of height `H` and slice count `n`, with
    `rem = H % n` and `copyHeight = floor(H / n)`. -/
def cutBlocks (H n : Nat) : List (Nat × Nat) :=
  ((List.range n).foldl (blockStep (H / n) (H % n) n) ([], 0)).1

/-- The drawing loop (app.js lines 118-125): blocks are visited in reverse
    index order (the argument is the reversed `blocks` list), each emitting a
    draw of height `end - start` at the accumulated `destY`. -/
def drawLoop : List (Nat × Nat) → Nat → List DrawOp
  | [], _ => []
  | b :: rest, d => ⟨b.1, d, b.2 - b.1⟩ :: drawLoop rest (d + (b.2 - b.1))

/-- Embeds `cutImage(image, sliceCount)` (app.js lines 91-128): the canvas is
    resized to the image's natural dimensions; unless `sliceCount ≤ 1` the
    source blocks are drawn last-to-first and the canvas is displayed. -/
def cutImage (image : Raster) (n : Nat) : Canvas :=
  if n ≤ 1 then
    ⟨image.naturalWidth, image.naturalHeight, [], false⟩
  else
    ⟨image.naturalWidth, image.naturalHeight,
      drawLoop (cutBlocks image.naturalHeight n).reverse 0, true⟩

/-- Content of destination row `r` after running the remaining draw
    operations over a canvas whose row `r` currently shows source row `acc`
    (`none` = cleared): later draws overwrite earlier ones. -/
def destAux (r : Nat) : List DrawOp → Option Nat → Option Nat
  | [], acc => acc
  | op :: rest, acc =>
    destAux r rest
      (if op.destY ≤ r ∧ r < op.destY + op.h then some (op.srcY + (r - op.destY)) else acc)

/-- The source row shown at destination row `r` after all draw operations,
    starting from the cleared canvas (`context.clearRect`, app.js line 100). -/
def destSrc (ops : List DrawOp) (r : Nat) : Option Nat :=
  destAux r ops none

theorem getD_of_lt {α : Type} (l : List α) (i : Nat) (d : α) (hlen : i < l.length) :
    l.getD i d = l[i] := by
  rw [List.getD_eq_getElem?_getD, List.getElem?_eq_getElem hlen]
  rfl

theorem blockStep_foldl (c rem n : Nat) :
    ∀ k, k < n →
      (List.range k).foldl (blockStep c rem n) ([], 0) =
        ((List.range k).map (fun j => (c * j, c * (j + 1))), c * k) := by
  intro k
  induction k with
  | zero => intro _; simp
  | succ k ih =>
    intro hk
    have hk2 : k < n := by omega
    rw [List.range_succ, List.foldl_append, ih hk2]
    have hne : ¬ (k = n - 1) := by omega
    simp [blockStep, hne, List.range_succ]

theorem cutBlocks_eq (H n : Nat) (hn : 1 ≤ n) :
    cutBlocks H n =
      ((List.range (n - 1)).map (fun j => (H / n * j, H / n * (j + 1)))) ++
        [(H / n * (n - 1), H)] := by
  obtain ⟨m, rfl⟩ : ∃ m, n = m + 1 := ⟨n - 1, by omega⟩
  have hH : H / (m + 1) * (m + 1) + H % (m + 1) = H := by
    rw [Nat.mul_comm]
    exact Nat.div_add_mod H (m + 1)
  rw [cutBlocks, List.range_succ, List.foldl_append,
    blockStep_foldl (H / (m + 1)) (H % (m + 1)) (m + 1) m (by omega)]
  simp [blockStep, hH]

theorem sum_heights_range (c : Nat) :
    ∀ k, ((List.range k).map (fun j => c * (j + 1) - c * j)).sum = k * c := by
  intro k
  induction k with
  | zero => simp
  | succ k ih =>
    rw [List.range_succ, List.map_append, List.sum_append, ih]
    have h1 : c * (k + 1) - c * k = c := by
      rw [Nat.mul_succ]
      omega
    simp [h1, Nat.succ_mul]

/-- Claim C3: for `n ≥ 2` and any raster height `H`, `cutImage` builds
    exactly `n` source blocks, block `i` being `[base*i, base*(i+1))` for
    `i < n-1` and the final block `[base*(n-1), H)` with `base = floor(H/n)`;
    every block has non-negative height (start ≤ end), the blocks are
    contiguous starting at row `0` with no gap or overlap, and their heights
    sum to exactly `H` — also when `H < n`. -/
theorem getD_append_left {α : Type} :
    ∀ (l1 l2 : List α) (i : Nat) (d : α), i < l1.length →
      (l1 ++ l2).getD i d = l1.getD i d := by
  intro l1
  induction l1 with
  | nil =>
    intro l2 i d hi
    simp at hi
  | cons a t ih =>
    intro l2 i d hi
    cases i with
    | zero => rfl
    | succ i =>
      show (t ++ l2).getD i d = t.getD i d
      exact ih l2 i d (by simpa using hi)

theorem getD_append_length {α : Type} :
    ∀ (l1 : List α) (x d : α), (l1 ++ [x]).getD l1.length d = x := by
  intro l1 x d
  induction l1 with
  | nil => rfl
  | cons a t ih => exact ih

/-- Claim C3: for `n ≥ 2` and any raster height `H`, `cutImage` builds
    exactly `n` source blocks, block `i` being `[base*i, base*(i+1))` for
    `i < n-1` and the final block `[base*(n-1), H)` with `base = floor(H/n)`;
    every block has non-negative height (start ≤ end), the blocks are
    contiguous starting at row `0` with no gap or overlap, and their heights
    sum to exactly `H` — also when `H < n`. -/
theorem cutBlocks_partition_spec (H n : Nat) (hn : 2 ≤ n) :
    (cutBlocks H n).length = n ∧
    (∀ i, i < n - 1 → (cutBlocks H n).getD i (0, 0) = (H / n * i, H / n * (i + 1))) ∧
    (cutBlocks H n).getD (n - 1) (0, 0) = (H / n * (n - 1), H) ∧
    (∀ b ∈ cutBlocks H n, b.1 ≤ b.2) ∧
    ((cutBlocks H n).getD 0 (0, 0)).1 = 0 ∧
    (∀ i, i + 1 < n →
      ((cutBlocks H n).getD i (0, 0)).2 = ((cutBlocks H n).getD (i + 1) (0, 0)).1) ∧
    ((cutBlocks H n).map (fun b => b.2 - b.1)).sum = H := by
  have h1 : (1 : Nat) ≤ n := by omega
  rw [cutBlocks_eq H n h1]
  have hmaplen : ((List.range (n - 1)).map
      (fun j => (H / n * j, H / n * (j + 1)))).length = n - 1 := by
    simp
  have hmid : ∀ i, i < n - 1 →
      (((List.range (n - 1)).map (fun j => (H / n * j, H / n * (j + 1)))) ++
        [(H / n * (n - 1), H)]).getD i (0, 0) = (H / n * i, H / n * (i + 1)) := by
    intro i hi
    rw [getD_append_left _ _ i (0, 0) (by omega),
      getD_of_lt _ i (0, 0) (by omega)]
    simp
  have hlast :
      (((List.range (n - 1)).map (fun j => (H / n * j, H / n * (j + 1)))) ++
        [(H / n * (n - 1), H)]).getD (n - 1) (0, 0) = (H / n * (n - 1), H) := by
    have h2 := getD_append_length
      ((List.range (n - 1)).map (fun j => (H / n * j, H / n * (j + 1))))
      ((H / n * (n - 1), H)) ((0, 0))
    rwa [hmaplen] at h2
  have hdiv : H / n * n ≤ H := Nat.div_mul_le_self H n
  have hmono : H / n * (n - 1) ≤ H / n * n := Nat.mul_le_mul_left _ (by omega)
  refine ⟨?_, hmid, hlast, ?_, ?_, ?_, ?_⟩
  · simp
    omega
  · intro b hb
    rcases List.mem_append.1 hb with hb1 | hb2
    · obtain ⟨j, _, rfl⟩ := List.mem_map.1 hb1
      exact Nat.mul_le_mul_left _ (by omega)
    · have : b = (H / n * (n - 1), H) := by simpa using hb2
      subst this
      exact le_trans hmono hdiv
  · rw [hmid 0 (by omega)]
    simp
  · intro i hi
    rw [hmid i (by omega)]
    by_cases hcase : i + 1 < n - 1
    · rw [hmid (i + 1) hcase]
    · have hieq : i + 1 = n - 1 := by omega
      rw [hieq, hlast]
  · rw [List.map_append, List.sum_append, List.map_map]
    have hcomp : ((fun b : Nat × Nat => b.2 - b.1) ∘
        (fun j => (H / n * j, H / n * (j + 1)))) =
        (fun j => H / n * (j + 1) - H / n * j) := rfl
    rw [hcomp, sum_heights_range (H / n) (n - 1)]
    have hsing : ([(H / n * (n - 1), H)].map (fun b : Nat × Nat => b.2 - b.1)).sum =
        H - H / n * (n - 1) := by simp
    rw [hsing]
    have hcm : (n - 1) * (H / n) = H / n * (n - 1) := Nat.mul_comm _ _
    omega

theorem destAux_cons (r : Nat) (op : DrawOp) (rest : List DrawOp) (acc : Option Nat) :
    destAux r (op :: rest) acc =
      destAux r rest (if op.destY ≤ r ∧ r < op.destY + op.h
        then some (op.srcY + (r - op.destY)) else acc) := rfl

theorem destAux_skip : ∀ (ops : List DrawOp) (r : Nat) (acc : Option Nat),
    (∀ op ∈ ops, ¬ (op.destY ≤ r ∧ r < op.destY + op.h)) →
      destAux r ops acc = acc := by
  intro ops
  induction ops with
  | nil =>
    intro r acc _
    rfl
  | cons op rest ih =>
    intro r acc hno
    rw [destAux_cons, if_neg (hno op (by simp))]
    exact ih r acc (fun op2 h2 => hno op2 (by simp [h2]))

theorem drawLoop_length : ∀ (l : List (Nat × Nat)) (d : Nat),
    (drawLoop l d).length = l.length := by
  intro l
  induction l with
  | nil =>
    intro d
    rfl
  | cons b rest ih =>
    intro d
    simp [drawLoop, ih]

theorem drawLoop_destY_lb : ∀ (l : List (Nat × Nat)) (d : Nat),
    ∀ op ∈ drawLoop l d, d ≤ op.destY := by
  intro l
  induction l with
  | nil =>
    intro d op hop
    simp [drawLoop] at hop
  | cons b rest ih =>
    intro d op hop
    rw [drawLoop] at hop
    rcases List.mem_cons.1 hop with heq | hmem
    · simp [heq]
    · have := ih (d + (b.2 - b.1)) op hmem
      omega

theorem drawLoop_getD :
    ∀ (l : List (Nat × Nat)) (d j : Nat), j < l.length →
      (drawLoop l d).getD j ⟨0, 0, 0⟩ =
        ⟨(l.getD j (0, 0)).1,
          d + ((l.take j).map (fun b => b.2 - b.1)).sum,
          (l.getD j (0, 0)).2 - (l.getD j (0, 0)).1⟩ := by
  intro l
  induction l with
  | nil =>
    intro d j hj
    simp at hj
  | cons b rest ih =>
    intro d j hj
    cases j with
    | zero =>
      simp only [List.take_zero, List.map_nil, List.sum_nil, Nat.add_zero]
      rfl
    | succ j =>
      have hj2 : j < rest.length := by simpa using hj
      simp only [List.take_succ_cons, List.map_cons, List.sum_cons]
      show (drawLoop rest (d + (b.2 - b.1))).getD j ⟨0, 0, 0⟩ = _
      rw [ih (d + (b.2 - b.1)) j hj2]
      have harith : (d + (b.2 - b.1)) + ((rest.take j).map (fun x => x.2 - x.1)).sum
          = d + ((b.2 - b.1) + ((rest.take j).map (fun x => x.2 - x.1)).sum) := by
        omega
      rw [harith]
      rfl

theorem drawLoop_destSrc :
    ∀ (l : List (Nat × Nat)) (d j : Nat), j < l.length →
      ∀ k, k < (l.getD j (0, 0)).2 - (l.getD j (0, 0)).1 →
        destSrc (drawLoop l d) (d + ((l.take j).map (fun b => b.2 - b.1)).sum + k) =
          some ((l.getD j (0, 0)).1 + k) := by
  intro l
  induction l with
  | nil =>
    intro d j hj k hk
    simp at hj
  | cons b rest ih =>
    intro d j hj k hk
    cases j with
    | zero =>
      have hkb : k < b.2 - b.1 := hk
      simp only [List.take_zero, List.map_nil, List.sum_nil, Nat.add_zero]
      rw [destSrc, drawLoop, destAux_cons]
      have e2 : (⟨b.1, d, b.2 - b.1⟩ : DrawOp).destY = d := rfl
      have e3 : (⟨b.1, d, b.2 - b.1⟩ : DrawOp).h = b.2 - b.1 := rfl
      have e4 : (⟨b.1, d, b.2 - b.1⟩ : DrawOp).srcY = b.1 := rfl
      rw [e2, e3, e4, if_pos (by omega : d ≤ d + k ∧ d + k < d + (b.2 - b.1))]
      have hskip := destAux_skip (drawLoop rest (d + (b.2 - b.1))) (d + k)
        (some (b.1 + (d + k - d)))
        (fun op hop => by
          have := drawLoop_destY_lb rest (d + (b.2 - b.1)) op hop
          omega)
      rw [hskip]
      have hdk : d + k - d = k := by omega
      rw [hdk]
      rfl
    | succ j =>
      have hj2 : j < rest.length := by simpa using hj
      have hk2 : k < (rest.getD j (0, 0)).2 - (rest.getD j (0, 0)).1 := hk
      simp only [List.take_succ_cons, List.map_cons, List.sum_cons]
      rw [destSrc, drawLoop, destAux_cons]
      have e2 : (⟨b.1, d, b.2 - b.1⟩ : DrawOp).destY = d := rfl
      have e3 : (⟨b.1, d, b.2 - b.1⟩ : DrawOp).h = b.2 - b.1 := rfl
      rw [e2, e3]
      rw [if_neg (by omega :
        ¬ (d ≤ d + ((b.2 - b.1) + ((rest.take j).map (fun x => x.2 - x.1)).sum) + k ∧
           d + ((b.2 - b.1) + ((rest.take j).map (fun x => x.2 - x.1)).sum) + k <
             d + (b.2 - b.1)))]
      have harith : d + ((b.2 - b.1) + ((rest.take j).map (fun x => x.2 - x.1)).sum) + k
          = (d + (b.2 - b.1)) + ((rest.take j).map (fun x => x.2 - x.1)).sum + k := by
        omega
      rw [harith]
      exact ih (d + (b.2 - b.1)) j hj2 k hk2

theorem cutBlocks_length (H n : Nat) (hn : 1 ≤ n) : (cutBlocks H n).length = n := by
  rw [cutBlocks_eq H n hn]
  simp
  omega

theorem getD_reverse {α : Type} (l : List α) (j : Nat) (d : α) (hj : j < l.length) :
    l.reverse.getD j d = l.getD (l.length - 1 - j) d := by
  rw [getD_of_lt _ _ _ (by simpa using hj), getD_of_lt _ _ _ (by omega)]
  exact List.getElem_reverse (by simpa using hj)

/-- Witness for `cutBlocks_partition_spec` at `H = 2`, `n = 3` (a raster
    shorter than the slice count). -/
theorem cutBlocks_partition_spec_wit :
    2 ≤ 3 ∧
    ((cutBlocks 2 3).length = 3 ∧
    (∀ i, i < 3 - 1 → (cutBlocks 2 3).getD i (0, 0) = (2 / 3 * i, 2 / 3 * (i + 1))) ∧
    (cutBlocks 2 3).getD (3 - 1) (0, 0) = (2 / 3 * (3 - 1), 2) ∧
    (∀ b ∈ cutBlocks 2 3, b.1 ≤ b.2) ∧
    ((cutBlocks 2 3).getD 0 (0, 0)).1 = 0 ∧
    (∀ i, i + 1 < 3 →
      ((cutBlocks 2 3).getD i (0, 0)).2 = ((cutBlocks 2 3).getD (i + 1) (0, 0)).1) ∧
    ((cutBlocks 2 3).map (fun b => b.2 - b.1)).sum = 2) :=
  ⟨by decide, cutBlocks_partition_spec 2 3 (by decide)⟩

set_option maxRecDepth 4000 in
/-- Claim C4: for `n ≥ 2` the destination canvas has the same width and
    height as the source raster and receives exactly `n` block copies in
    reverse index order — the `j`-th draw takes source block `n-1-j`, its
    destination offset is the accumulated height of the previously placed
    blocks, and every row inside a block keeps its internal order
    (destination row `destY + k` shows source row `srcY + k`).  For `H = 300`
    and `n = 3`, destination rows `0-99` show source rows `[200,300)`, rows
    `100-199` show `[100,200)`, and rows `200-299` show `[0,100)`. -/
theorem cutImage_reverse_assembly_spec :
    (∀ (img : Raster) (n : Nat), 2 ≤ n →
      (cutImage img n).width = img.naturalWidth ∧
      (cutImage img n).height = img.naturalHeight ∧
      (cutImage img n).ops.length = n ∧
      (∀ j, j < n →
        ((cutImage img n).ops.getD j ⟨0, 0, 0⟩).srcY =
          ((cutBlocks img.naturalHeight n).getD (n - 1 - j) (0, 0)).1 ∧
        ((cutImage img n).ops.getD j ⟨0, 0, 0⟩).h =
          ((cutBlocks img.naturalHeight n).getD (n - 1 - j) (0, 0)).2 -
            ((cutBlocks img.naturalHeight n).getD (n - 1 - j) (0, 0)).1 ∧
        ((cutImage img n).ops.getD j ⟨0, 0, 0⟩).destY =
          (((cutBlocks img.naturalHeight n).reverse.take j).map
            (fun b => b.2 - b.1)).sum) ∧
      (∀ j, j < n → ∀ k, k < ((cutImage img n).ops.getD j ⟨0, 0, 0⟩).h →
        destSrc (cutImage img n).ops
            (((cutImage img n).ops.getD j ⟨0, 0, 0⟩).destY + k) =
          some (((cutImage img n).ops.getD j ⟨0, 0, 0⟩).srcY + k))) ∧
    (∀ r, r < 100 → destSrc (cutImage ⟨1, 300⟩ 3).ops r = some (200 + r)) ∧
    (∀ r, r < 200 → 100 ≤ r → destSrc (cutImage ⟨1, 300⟩ 3).ops r = some r) ∧
    (∀ r, r < 300 → 200 ≤ r → destSrc (cutImage ⟨1, 300⟩ 3).ops r = some (r - 200)) := by
  refine ⟨?_, by decide, by decide, by decide⟩
  intro img n hn
  have hne : ¬ n ≤ 1 := by omega
  have hbl : (cutBlocks img.naturalHeight n).length = n :=
    cutBlocks_length img.naturalHeight n (by omega)
  have hrl : (cutBlocks img.naturalHeight n).reverse.length = n := by
    simpa using hbl
  have hops : (cutImage img n).ops = drawLoop (cutBlocks img.naturalHeight n).reverse 0 := by
    rw [cutImage, if_neg hne]
  refine ⟨?_, ?_, ?_, ?_, ?_⟩
  · rw [cutImage, if_neg hne]
  · rw [cutImage, if_neg hne]
  · rw [hops, drawLoop_length]
    exact hrl
  · intro j hj
    have hjL : j < (cutBlocks img.naturalHeight n).reverse.length := by omega
    rw [hops, drawLoop_getD _ 0 j hjL,
      getD_reverse _ j (0, 0) (by omega), hbl]
    refine ⟨rfl, ?_, ?_⟩
    · rfl
    · show 0 + _ = _
      omega
  · intro j hj k hk
    have hjL : j < (cutBlocks img.naturalHeight n).reverse.length := by omega
    rw [hops, drawLoop_getD _ 0 j hjL] at hk ⊢
    exact drawLoop_destSrc _ 0 j hjL k hk

/-- Witness for `cutImage_reverse_assembly_spec` at a `1 × 300` raster and
    slice count `3`. -/
theorem cutImage_reverse_assembly_spec_wit :
    2 ≤ 3 ∧
    (cutImage ⟨1, 300⟩ 3).width = 1 ∧
    (cutImage ⟨1, 300⟩ 3).height = 300 ∧
    (cutImage ⟨1, 300⟩ 3).ops.length = 3 ∧
    ((cutImage ⟨1, 300⟩ 3).ops.getD 0 ⟨0, 0, 0⟩).srcY =
      ((cutBlocks 300 3).getD 2 (0, 0)).1 := by
  obtain ⟨hgen, -, -, -⟩ := cutImage_reverse_assembly_spec
  obtain ⟨hw, hh, hlen, hpos, -⟩ := hgen ⟨1, 300⟩ 3 (by decide)
  exact ⟨by decide, hw, hh, hlen, (hpos 0 (by decide)).1⟩

/-- The `DescrambledImage` instance fields the load/descramble protocol
    mutates (app.js lines 14-22): `loading`, `needDescramble`, `loadToken`,
    and the canvas content last produced by `cutImage` (`none` = never
    drawn). -/
structure InstState where
  loading : Bool
  needDescramble : Bool
  loadToken : Nat
  canvas : Option Canvas
deriving DecidableEq

/-- A pending fetch/decode attempt: the token captured by
    `const myToken = ++this.loadToken` and the slice count captured by the
    `onload` closure (app.js lines 60, 67, 81). -/
structure Attempt where
  token : Nat
  sliceCount : Nat
deriving DecidableEq

/-- The synchronous part of `loadImage()` (app.js lines 59-77): the token is
    incremented first, before any branch; `loading` and `needDescramble` are
    set; the slice count is computed from the parsed ids and the page base
    name; when it is `≤ 1` or the page is a `.gif`, loading ends and no fetch
    starts (`none`); otherwise `needDescramble` is set and a fetch begins,
    returning the pending attempt whose completions are `onImageLoad` and
    `onImageError`. -/
def loadImageStart (md5 : String → String) (s : InstState)
    (comicId scrambleId : Option Int) (page : String) :
    InstState × Option Attempt :=
  let myToken := s.loadToken + 1
  let s1 : InstState :=
    { s with loadToken := myToken, loading := true, needDescramble := false }
  let sliceCount := getSegmentationNum md5 comicId scrambleId (pageBaseName page)
  if sliceCount ≤ 1 ∨ isGifPage page = true then
    ({ s1 with loading := false }, none)
  else
    ({ s1 with needDescramble := true },
      some { token := myToken, sliceCount := sliceCount })

/-- The `img.onload` handler (app.js lines 79-83), applied to the state the
    instance holds when the decode resolves: a stale token returns with no
    mutation and no draw; otherwise `cutImage` runs and loading ends. -/
def onImageLoad (s : InstState) (a : Attempt) (img : Raster) : InstState :=
  if a.token ≠ s.loadToken then s
  else { s with canvas := some (cutImage img a.sliceCount), loading := false }

/-- The `img.onerror` handler (app.js lines 85-89): a stale token returns
    with no mutation; otherwise descrambling is abandoned and loading ends. -/
def onImageError (s : InstState) (a : Attempt) : InstState :=
  if a.token ≠ s.loadToken then s
  else { s with needDescramble := false, loading := false }

theorem loadImageStart_tokens (md5 : String → String) (s : InstState)
    (cid sid : Option Int) (page : String) (st : InstState) (a : Attempt)
    (heq : loadImageStart md5 s cid sid page = (st, some a)) :
    a.token = s.loadToken + 1 ∧ st.loadToken = s.loadToken + 1 := by
  simp only [loadImageStart] at heq
  split at heq
  · injection heq with h1 h2
    exact Option.noConfusion h2
  · injection heq with h1 h2
    injection h2 with h3
    constructor
    · rw [← h3]
    · rw [← h1]

theorem onImageLoad_loadToken (s : InstState) (a : Attempt) (img : Raster) :
    (onImageLoad s a img).loadToken = s.loadToken := by
  rw [onImageLoad]
  split <;> rfl

/-- Claim C9: every `loadImage` invocation increments the instance's
    `loadToken` by exactly one, in every branch — including the
    short-circuit branches (slice count `≤ 1` or `.gif` page) that start no
    fetch — so a short-circuiting call invalidates any still-pending earlier
    attempt's `onload`/`onerror` just as a descrambling call does. -/
theorem loadImage_token_increment (md5 : String → String) (s : InstState)
    (cid sid : Option Int) (page : String) :
    (loadImageStart md5 s cid sid page).1.loadToken = s.loadToken + 1 ∧
    (∀ a : Attempt, a.token ≤ s.loadToken →
      (∀ img : Raster,
        onImageLoad (loadImageStart md5 s cid sid page).1 a img =
          (loadImageStart md5 s cid sid page).1) ∧
      onImageError (loadImageStart md5 s cid sid page).1 a =
        (loadImageStart md5 s cid sid page).1) := by
  have htok : (loadImageStart md5 s cid sid page).1.loadToken = s.loadToken + 1 := by
    simp only [loadImageStart]
    split <;> rfl
  refine ⟨htok, ?_⟩
  intro a ha
  have hne : a.token ≠ (loadImageStart md5 s cid sid page).1.loadToken := by
    rw [htok]
    omega
  exact ⟨fun img => by rw [onImageLoad, if_pos hne], by rw [onImageError, if_pos hne]⟩

/-- Witness for `loadImage_token_increment`: a `.gif` page short-circuits
    (no fetch) yet still bumps the token from 5 to 6, voiding a pending
    attempt that holds token 5. -/
theorem loadImage_token_increment_wit :
    (loadImageStart stubDigestA ⟨true, false, 5, none⟩ (some 300000) none
      "x.gif").1.loadToken = 5 + 1 ∧
    (5 : Nat) ≤ 5 ∧
    onImageLoad (loadImageStart stubDigestA ⟨true, false, 5, none⟩ (some 300000)
        none "x.gif").1 ⟨5, 10⟩ ⟨1, 300⟩ =
      (loadImageStart stubDigestA ⟨true, false, 5, none⟩ (some 300000) none
        "x.gif").1 ∧
    onImageError (loadImageStart stubDigestA ⟨true, false, 5, none⟩ (some 300000)
        none "x.gif").1 ⟨5, 10⟩ =
      (loadImageStart stubDigestA ⟨true, false, 5, none⟩ (some 300000) none
        "x.gif").1 := by
  obtain ⟨h1, h2⟩ := loadImage_token_increment stubDigestA ⟨true, false, 5, none⟩
    (some 300000) none "x.gif"
  obtain ⟨h3, h4⟩ := h2 ⟨5, 10⟩ (by decide)
  exact ⟨h1, by decide, h3 ⟨1, 300⟩, h4⟩

/-- Claim C8: for a page whose filename ends in `.gif` (case-insensitively),
    `loadImage` starts no fetch — so `cutImage` can never run for that
    attempt — and the attempt ends at once with loading complete,
    `needDescramble` false (the plain decoded image is shown) and the canvas
    untouched, whatever slice count the identifiers would produce. -/
theorem gif_skips_reconstructor (md5 : String → String) (s : InstState)
    (cid sid : Option Int) (page : String) (hgif : isGifPage page = true) :
    (loadImageStart md5 s cid sid page).2 = none ∧
    (loadImageStart md5 s cid sid page).1.loading = false ∧
    (loadImageStart md5 s cid sid page).1.needDescramble = false ∧
    (loadImageStart md5 s cid sid page).1.canvas = s.canvas := by
  have hmain : loadImageStart md5 s cid sid page =
      (({ s with loadToken := s.loadToken + 1, loading := false, needDescramble := false } : InstState), none) := by
    simp only [loadImageStart, if_pos (Or.inr hgif)]
  rw [hmain]
  exact ⟨rfl, rfl, rfl, rfl⟩

/-- Witness for `gif_skips_reconstructor` on "x.GIF" (upper case) with an
    identifier whose computed slice count would be `4`. -/
theorem gif_skips_reconstructor_wit :
    isGifPage "x.GIF" = true ∧
    (loadImageStart stubDigestA ⟨true, false, 0, none⟩ (some 500000) none
      "x.GIF").2 = none ∧
    (loadImageStart stubDigestA ⟨true, false, 0, none⟩ (some 500000) none
      "x.GIF").1.loading = false ∧
    (loadImageStart stubDigestA ⟨true, false, 0, none⟩ (some 500000) none
      "x.GIF").1.needDescramble = false ∧
    (loadImageStart stubDigestA ⟨true, false, 0, none⟩ (some 500000) none
      "x.GIF").1.canvas = none := by
  obtain ⟨h1, h2, h3, h4⟩ := gif_skips_reconstructor stubDigestA
    ⟨true, false, 0, none⟩ (some 500000) none "x.GIF" (by decide)
  exact ⟨by decide, h1, h2, h3, h4⟩

/-- Claim C2: a completion (success or failure) whose captured token differs
    from the instance's current `loadToken` performs no state mutation and no
    canvas draw; consequently, when `loadImage` runs twice on one instance,
    the first attempt's completion is a no-op whether it arrives after the
    second start or even after the second attempt's completion, while the
    second attempt's `onload` is the one whose result (the `cutImage` canvas)
    is applied. -/
theorem stale_completion_noop :
    (∀ (s : InstState) (a : Attempt) (img : Raster),
      a.token ≠ s.loadToken → onImageLoad s a img = s ∧ onImageError s a = s) ∧
    (∀ (md5 : String → String) (s st1 st2 : InstState)
        (c1 sc1 c2 sc2 : Option Int) (p1 p2 : String) (a1 a2 : Attempt)
        (img1 img2 : Raster),
      loadImageStart md5 s c1 sc1 p1 = (st1, some a1) →
      loadImageStart md5 st1 c2 sc2 p2 = (st2, some a2) →
      (onImageLoad st2 a1 img1 = st2 ∧ onImageError st2 a1 = st2) ∧
      onImageLoad st2 a2 img2 =
        { st2 with canvas := some (cutImage img2 a2.sliceCount),
                   loading := false } ∧
      (onImageLoad (onImageLoad st2 a2 img2) a1 img1 = onImageLoad st2 a2 img2 ∧
        onImageError (onImageLoad st2 a2 img2) a1 = onImageLoad st2 a2 img2)) := by
  constructor
  · intro s a img hne
    exact ⟨by rw [onImageLoad, if_pos hne], by rw [onImageError, if_pos hne]⟩
  · intro md5 s st1 st2 c1 sc1 c2 sc2 p1 p2 a1 a2 img1 img2 h1 h2
    obtain ⟨ha1, hst1⟩ := loadImageStart_tokens md5 s c1 sc1 p1 st1 a1 h1
    obtain ⟨ha2, hst2⟩ := loadImageStart_tokens md5 st1 c2 sc2 p2 st2 a2 h2
    have hne1 : a1.token ≠ st2.loadToken := by omega
    refine ⟨⟨by rw [onImageLoad, if_pos hne1], by rw [onImageError, if_pos hne1]⟩,
      ?_, ?_⟩
    · rw [onImageLoad, if_neg (by omega : ¬ a2.token ≠ st2.loadToken)]
    · have hpres : (onImageLoad st2 a2 img2).loadToken = st2.loadToken :=
        onImageLoad_loadToken st2 a2 img2
      have hne1b : a1.token ≠ (onImageLoad st2 a2 img2).loadToken := by omega
      exact ⟨by rw [onImageLoad, if_pos hne1b], by rw [onImageError, if_pos hne1b]⟩

/-- Witness for `stale_completion_noop`: two concrete back-to-back
    `loadImage` calls; the first attempt's completions mutate nothing
    whether they land after the second start or after the second attempt's
    own completion, and the second attempt's `onload` draws its canvas. -/
theorem stale_completion_noop_wit :
    loadImageStart stubDigestA ⟨true, false, 0, none⟩ (some 300000) none "p.jpg" =
      (⟨true, true, 1, none⟩, some ⟨1, 16⟩) ∧
    loadImageStart stubDigestA ⟨true, true, 1, none⟩ (some 300000) none "p.jpg" =
      (⟨true, true, 2, none⟩, some ⟨2, 16⟩) ∧
    (onImageLoad ⟨true, true, 2, none⟩ ⟨1, 16⟩ ⟨1, 300⟩ = ⟨true, true, 2, none⟩ ∧
      onImageError ⟨true, true, 2, none⟩ ⟨1, 16⟩ = ⟨true, true, 2, none⟩) ∧
    onImageLoad ⟨true, true, 2, none⟩ ⟨2, 16⟩ ⟨1, 300⟩ =
      ⟨false, true, 2, some (cutImage ⟨1, 300⟩ 16)⟩ ∧
    (onImageLoad (onImageLoad ⟨true, true, 2, none⟩ ⟨2, 16⟩ ⟨1, 300⟩) ⟨1, 16⟩
        ⟨1, 300⟩ = onImageLoad ⟨true, true, 2, none⟩ ⟨2, 16⟩ ⟨1, 300⟩ ∧
      onImageError (onImageLoad ⟨true, true, 2, none⟩ ⟨2, 16⟩ ⟨1, 300⟩) ⟨1, 16⟩ =
        onImageLoad ⟨true, true, 2, none⟩ ⟨2, 16⟩ ⟨1, 300⟩) := by
  have h1 : loadImageStart stubDigestA ⟨true, false, 0, none⟩ (some 300000) none
      "p.jpg" = (⟨true, true, 1, none⟩, some ⟨1, 16⟩) := by decide
  have h2 : loadImageStart stubDigestA ⟨true, true, 1, none⟩ (some 300000) none
      "p.jpg" = (⟨true, true, 2, none⟩, some ⟨2, 16⟩) := by decide
  obtain ⟨hstale, happly, hlate⟩ := (stale_completion_noop).2 stubDigestA
    ⟨true, false, 0, none⟩ ⟨true, true, 1, none⟩ ⟨true, true, 2, none⟩
    (some 300000) none (some 300000) none "p.jpg" "p.jpg"
    ⟨1, 16⟩ ⟨2, 16⟩ ⟨1, 300⟩ ⟨1, 300⟩ h1 h2
  exact ⟨h1, h2, hstale, happly, hlate⟩
